import Mathlib

/-
  Verification development for the query-plan subsystem of the graphql-compiler
  repository (file: graphql_compiler/schema_transformation/query_plan.py).

  The Python source is shallowly embedded below:
  - GraphQL AST nodes (Field, InlineFragment, OperationDefinition, Directive,
    Argument, StringValue, ListValue) become the inductive types GAst, Directive,
    Argument and GValue.  Attributes of the Python AST nodes that the code under
    study never reads and only carries along verbatim via copy (aliases, field
    arguments, type conditions, source locations) are omitted; copying a node is
    reconstruction of the corresponding constructor.
  - A Document holding exactly one OperationDefinition is represented by that
    single definition; the external helper get_only_query_definition, which
    unwraps it, therefore disappears from the embedding.
  - Python dicts become association lists with first-match lookup and
    update-in-place insertion, mirroring insertion-ordered dict semantics.
    Python sets of propagated values become duplicate-free lists in insertion
    order; properties about them are stated up to membership, since Python set
    iteration order is unspecified.
  - Runtime data values (row cells and argument values) become the inductive
    type Value with an explicit null constructor standing for Python None.
  - Fallible code returns Except: GraphQLValidationError and AssertionError at
    build time become BuildError.validation and BuildError.assertion; KeyError,
    IndexError and AssertionError at execution and join time become
    RunError.keyError, RunError.indexError and RunError.assertionError.
  - The executors supplied from outside receive the sub-query AST directly
    instead of its serialization through print_ast; serialization is an
    external-library bijection that no claim depends on.
-/

/-- Runtime value stored in a result row or passed as a query argument.
The null constructor stands for Python None. -/
inductive Value : Type where
  | null
  | int (n : Int)
  | str (s : String)
  | list (vs : List Value)

mutual

/-- Boolean structural equality on runtime values. -/
def Value.beq : Value → Value → Bool
  | .null, .null => true
  | .int m, .int n => m == n
  | .str a, .str b => a == b
  | .list xs, .list ys => Value.beqList xs ys
  | _, _ => false

/-- Boolean structural equality on lists of runtime values. -/
def Value.beqList : List Value → List Value → Bool
  | [], [] => true
  | x :: xs, y :: ys => Value.beq x y && Value.beqList xs ys
  | _, _ => false

end

mutual

theorem Value.beq_iff : ∀ (a b : Value), Value.beq a b = true ↔ a = b
  | .null, b => by cases b <;> simp [Value.beq]
  | .int m, b => by cases b <;> simp [Value.beq]
  | .str s, b => by cases b <;> simp [Value.beq]
  | .list xs, b => by
    cases b <;> simp [Value.beq]
    exact Value.beqList_iff xs _

theorem Value.beqList_iff : ∀ (xs ys : List Value), Value.beqList xs ys = true ↔ xs = ys
  | [], ys => by cases ys <;> simp [Value.beqList]
  | x :: xs, [] => by simp [Value.beqList]
  | x :: xs, y :: ys => by
    have h1 := Value.beq_iff x y
    have h2 := Value.beqList_iff xs ys
    simp [Value.beqList, h1, h2]

end

instance : DecidableEq Value := fun a b =>
  decidable_of_iff (Value.beq a b = true) (Value.beq_iff a b)

/-- A result row: a mapping from output name to value, as an insertion-ordered
association list (the embedding of a Python dict produced by an executor). -/
abbrev Row := List (String × Value)

/-- First-match lookup in an association list; some when the key is present.
This is dictionary read access without a default. -/
def lookup_assoc {κ ν : Type} [DecidableEq κ] : List (κ × ν) → κ → Option ν
  | [], _ => none
  | p :: rest, k => if p.1 = k then some p.2 else lookup_assoc rest k

/-- Dictionary assignment: overwrite the value at an existing key in place,
otherwise append the new key at the end, as an insertion-ordered dict does. -/
def insert_assoc {κ ν : Type} [DecidableEq κ] : List (κ × ν) → κ → ν → List (κ × ν)
  | [], k, v => [(k, v)]
  | p :: rest, k, v => if p.1 = k then (k, v) :: rest else p :: insert_assoc rest k v

/-- The embedding of the expression dict(current_row, **joining_row): keys of
the first dict in their order with values overridden by the second dict on
collision, followed by the keys appearing only in the second dict. -/
def dict_union (a b : Row) : Row :=
  a.map (fun p => match lookup_assoc b p.1 with
    | some v => (p.1, v)
    | none => p) ++
  b.filter (fun p => (lookup_assoc a p.1).isNone)

/-- Argument value node of a directive in the GraphQL AST: a StringValue or a
ListValue. -/
inductive GValue : Type where
  | string (s : String)
  | list (vs : List GValue)

/-- An Argument AST node: a name and a value. -/
structure Argument where
  name : String
  value : GValue

/-- A Directive AST node: a name and a list of arguments. -/
structure Directive where
  name : String
  arguments : List Argument

/-- GraphQL AST node kinds that occur in the selections traversed by the code:
a Field with its directives and optional selection set, an InlineFragment and
an OperationDefinition with their optional selection sets.  A selection set of
none embeds a Python selection_set that is None. -/
inductive GAst : Type where
  | field (name : String) (directives : List Directive)
      (selectionSet : Option (List GAst))
  | inlineFragment (selectionSet : Option (List GAst))
  | operationDefinition (selectionSet : Option (List GAst))

/-- Name of the output directive, OutputDirective.name in the source schema. -/
def output_directive_name : String := "output"

/-- Name of the filter directive, FilterDirective.name in the source schema. -/
def filter_directive_name : String := "filter"

/-- The embedding of the source function is_output_directive_with_name: the
directive is named output and its first argument has the given string value.
The original reads directive.arguments[0].value.value unguardedly and would
raise on an output directive with no arguments or with a non-string first
argument; such malformed directives, which the upstream compiler never emits,
simply do not match here. -/
def is_output_directive_with_name (directive : Directive) (out_name : String) : Bool :=
  directive.name = output_directive_name &&
    (match directive.arguments with
     | [] => false
     | a :: _ =>
       match a.value with
       | .string s => s = out_name
       | .list _ => false)

/-- The embedding of get_in_collection_filter_directive: a filter directive
with op_name in_collection whose value argument is a one-element list holding
a placeholder for the named local variable. -/
def get_in_collection_filter_directive (input_filter_name : String) : Directive :=
  { name := filter_directive_name,
    arguments := [
      { name := "op_name", value := .string "in_collection" },
      { name := "value", value := .list [.string ("$" ++ input_filter_name)] }] }

/-- Build-time failures: GraphQLValidationError and AssertionError. -/
inductive BuildError : Type where
  | validation
  | assertion
  deriving DecidableEq

mutual

/-- The embedding of add_filter_at_field_with_output.  The boolean in the
result records whether a new object was returned, which the original detects
by reference identity: true corresponds to a rewritten AST, false means the
input object itself was returned.  An error is the GraphQLValidationError
raised when a second changed selection is discovered at the same level. -/
def add_filter_at_field_with_output :
    GAst → String → String → Except BuildError (Bool × GAst)
  | .field name directives selectionSet, field_out_name, input_filter_name =>
    if directives.any (fun d => is_output_directive_with_name d field_out_name) then
      .ok (true, .field name
        (directives ++ [get_in_collection_filter_directive input_filter_name])
        selectionSet)
    else
      match selectionSet with
      | none => .ok (false, .field name directives none)
      | some selections =>
        match add_filter_in_selections selections field_out_name input_filter_name with
        | .error e => .error e
        | .ok (made_changes, new_selections) =>
          if made_changes then
            .ok (true, .field name directives (some new_selections))
          else
            .ok (false, .field name directives (some selections))
  | .inlineFragment selectionSet, field_out_name, input_filter_name =>
    match selectionSet with
    | none => .ok (false, .inlineFragment none)
    | some selections =>
      match add_filter_in_selections selections field_out_name input_filter_name with
      | .error e => .error e
      | .ok (made_changes, new_selections) =>
        if made_changes then
          .ok (true, .inlineFragment (some new_selections))
        else
          .ok (false, .inlineFragment (some selections))
  | .operationDefinition selectionSet, field_out_name, input_filter_name =>
    match selectionSet with
    | none => .ok (false, .operationDefinition none)
    | some selections =>
      match add_filter_in_selections selections field_out_name input_filter_name with
      | .error e => .error e
      | .ok (made_changes, new_selections) =>
        if made_changes then
          .ok (true, .operationDefinition (some new_selections))
        else
          .ok (false, .operationDefinition (some selections))

/-- The loop of add_filter_at_field_with_output over the selections of one
selection set: each selection is processed recursively, and discovering a
second changed selection raises the GraphQLValidationError about multiple
output directives with the same out_name. -/
def add_filter_in_selections :
    List GAst → String → String → Except BuildError (Bool × List GAst)
  | [], _, _ => .ok (false, [])
  | selection :: rest, field_out_name, input_filter_name =>
    match add_filter_at_field_with_output selection field_out_name input_filter_name with
    | .error e => .error e
    | .ok (changed, new_selection) =>
      match add_filter_in_selections rest field_out_name input_filter_name with
      | .error e => .error e
      | .ok (made_changes, new_rest) =>
        if changed && made_changes then
          .error .validation
        else
          .ok (changed || made_changes, new_selection :: new_rest)

end

mutual

/-- Number of fields matching the target output name that are visible to the
rewrite: a matching field counts once and its subtree is not entered, since
the original returns from a matched field without recursing into it. -/
def count_outermost_output_matches : GAst → String → Nat
  | .field _ directives none, out =>
    if directives.any (fun d => is_output_directive_with_name d out) then 1 else 0
  | .field _ directives (some selections), out =>
    if directives.any (fun d => is_output_directive_with_name d out) then 1
    else count_outermost_in_selections selections out
  | .inlineFragment none, _ => 0
  | .inlineFragment (some selections), out => count_outermost_in_selections selections out
  | .operationDefinition none, _ => 0
  | .operationDefinition (some selections), out => count_outermost_in_selections selections out

/-- Sum of outermost match counts over a list of selections. -/
def count_outermost_in_selections : List GAst → String → Nat
  | [], _ => 0
  | s :: rest, out =>
    count_outermost_output_matches s out + count_outermost_in_selections rest out

end

mutual

/-- Total number of fields anywhere in the fragment that carry an output
directive with the target name, counting fields nested inside other matching
fields as well. -/
def count_output_matches_total : GAst → String → Nat
  | .field _ directives none, out =>
    if directives.any (fun d => is_output_directive_with_name d out) then 1 else 0
  | .field _ directives (some selections), out =>
    (if directives.any (fun d => is_output_directive_with_name d out) then 1 else 0) +
      count_total_in_selections selections out
  | .inlineFragment none, _ => 0
  | .inlineFragment (some selections), out => count_total_in_selections selections out
  | .operationDefinition none, _ => 0
  | .operationDefinition (some selections), out => count_total_in_selections selections out

/-- Sum of total match counts over a list of selections. -/
def count_total_in_selections : List GAst → String → Nat
  | [], _ => 0
  | s :: rest, out =>
    count_output_matches_total s out + count_total_in_selections rest out

end

/-- A sub-query node, the external input tree: a query fragment, a schema id
and the ordered child connections, each a triple of source_field_out_name,
sink_field_out_name and sink_query_node. -/
inductive SubQueryNode : Type where
  | mk (query_ast : GAst) (schema_id : String)
      (child_query_connections : List (String × String × SubQueryNode))

/-- Fragment of a sub-query node. -/
def SubQueryNode.query_ast : SubQueryNode → GAst
  | .mk a _ _ => a

/-- Schema id of a sub-query node. -/
def SubQueryNode.schema_id : SubQueryNode → String
  | .mk _ s _ => s

/-- Child connections of a sub-query node. -/
def SubQueryNode.child_query_connections :
    SubQueryNode → List (String × String × SubQueryNode)
  | .mk _ _ c => c

/-- A sub-query plan node.  The parent_query_plan back-reference of the source
namedtuple is not stored: the only consumers of that field read the parent
plan id, which the join descriptors below record directly. -/
inductive SubQueryPlan : Type where
  | mk (plan_id : Nat) (query_ast : GAst) (schema_id : String)
      (child_query_plans : List SubQueryPlan)

/-- Plan id of a sub-query plan. -/
def SubQueryPlan.plan_id : SubQueryPlan → Nat
  | .mk i _ _ _ => i

/-- Fragment of a sub-query plan. -/
def SubQueryPlan.query_ast : SubQueryPlan → GAst
  | .mk _ a _ _ => a

/-- Schema id of a sub-query plan. -/
def SubQueryPlan.schema_id : SubQueryPlan → String
  | .mk _ _ s _ => s

/-- Children of a sub-query plan. -/
def SubQueryPlan.child_query_plans : SubQueryPlan → List SubQueryPlan
  | .mk _ _ _ c => c

/-- The embedding of OutputJoinDescriptor.  The source stores the child plan
object; the two consumers of that field read child_query_plan.plan_id and
child_query_plan.parent_query_plan.plan_id, recorded here directly as the
child and parent plan ids. -/
structure OutputJoinDescriptor where
  output_names : String × String
  child_plan_id : Nat
  parent_plan_id : Nat

/-- The embedding of QueryPlanDescriptor.  The frozenset of intermediate
output names becomes a list consulted only through membership. -/
structure QueryPlanDescriptor where
  root_sub_query_plan : SubQueryPlan
  intermediate_output_names : List String
  output_join_descriptors : List OutputJoinDescriptor

mutual

/-- The embedding of make_query_plan_recursive.  Given the node whose children
are to be copied, the plan id of the plan being filled in and the next free
plan id, it returns the created child plans and the join descriptors in
discovery order.  Faithful to the original, the next free plan id consumed
inside a child subtree is not threaded back to the loop over the remaining
sibling connections: the recursive call in the source neither returns a value
nor can mutate the caller's local next_plan_id. -/
def make_query_plan_recursive (sub_query_node : SubQueryNode)
    (self_plan_id next_plan_id : Nat) :
    Except BuildError (List SubQueryPlan × List OutputJoinDescriptor) :=
  match sub_query_node with
  | .mk _ _ child_query_connections =>
    make_plans_for_connections child_query_connections self_plan_id next_plan_id

/-- The loop of make_query_plan_recursive over the child connections of one
node, threading next_plan_id across siblings only. -/
def make_plans_for_connections :
    List (String × String × SubQueryNode) → Nat → Nat →
    Except BuildError (List SubQueryPlan × List OutputJoinDescriptor)
  | [], _, _ => .ok ([], [])
  | (parent_out_name, child_out_name, child_node) :: rest,
      self_plan_id, next_plan_id =>
    match add_filter_at_field_with_output
        child_node.query_ast child_out_name parent_out_name with
    | .error e => .error e
    | .ok (changed, new_child_ast) =>
      if changed then
        match make_query_plan_recursive child_node next_plan_id (next_plan_id + 1) with
        | .error e => .error e
        | .ok (grandchild_plans, child_descriptors) =>
          match make_plans_for_connections rest self_plan_id (next_plan_id + 1) with
          | .error e => .error e
          | .ok (sibling_plans, sibling_descriptors) =>
            .ok (SubQueryPlan.mk next_plan_id new_child_ast
                  child_node.schema_id grandchild_plans :: sibling_plans,
              ⟨(parent_out_name, child_out_name), next_plan_id, self_plan_id⟩ ::
                (child_descriptors ++ sibling_descriptors))
      else
        -- The filter was not added anywhere: the identity check in the source
        -- raises an AssertionError about the missing output directive.
        .error .assertion

end

/-- The embedding of make_query_plan: root plan id 0, recursion started with
next plan id 1, root fragment taken over unchanged. -/
def make_query_plan (root_sub_query_node : SubQueryNode)
    (intermediate_output_names : List String) :
    Except BuildError QueryPlanDescriptor :=
  match make_query_plan_recursive root_sub_query_node 0 1 with
  | .error e => .error e
  | .ok (children, output_join_descriptors) =>
    .ok ⟨SubQueryPlan.mk 0 root_sub_query_node.query_ast
          root_sub_query_node.schema_id children,
        intermediate_output_names, output_join_descriptors⟩

mutual

/-- Plan ids of a plan tree in preorder. -/
def preorder_plan_ids : SubQueryPlan → List Nat
  | .mk plan_id _ _ children => plan_id :: preorder_plan_ids_of_list children

/-- Plan ids of a list of plan trees, concatenated in order. -/
def preorder_plan_ids_of_list : List SubQueryPlan → List Nat
  | [] => []
  | p :: rest => preorder_plan_ids p ++ preorder_plan_ids_of_list rest

end

/-- A fragment whose single Animal field holds one child field carrying an
output directive with the given out_name; the shape every test tree below
uses for its leaf fragments. -/
def leaf_fragment (out : String) : GAst :=
  .operationDefinition (some [.field "Animal" [] (some [
    .field "name"
      [{ name := output_directive_name,
         arguments := [{ name := "out_name", value := .string out }] }]
      none])])

/-- Leaf node under the first child of the plan-id test tree. -/
def plan_id_node_a1 : SubQueryNode := .mk (leaf_fragment "f") "s3" []

/-- First child of the plan-id test tree, itself a parent. -/
def plan_id_node_a : SubQueryNode :=
  .mk (leaf_fragment "b") "s2" [("e", "f", plan_id_node_a1)]

/-- Second child of the plan-id test tree, a leaf. -/
def plan_id_node_b : SubQueryNode := .mk (leaf_fragment "d") "s4" []

/-- A node tree with three connections: the root connects to a node with one
child of its own and to a second, childless node.  The input on which plan-id
assignment goes wrong. -/
def plan_id_test_node : SubQueryNode :=
  .mk (leaf_fragment "r") "s1"
    [("a", "b", plan_id_node_a), ("c", "d", plan_id_node_b)]


/-- Execution-time and join-time failures: KeyError from direct dictionary
indexing, IndexError from list indexing, and the defensive AssertionError in
join-index construction. -/
inductive RunError : Type where
  | keyError
  | indexError
  | assertionError
  deriving DecidableEq

mutual

/-- The helper of get_plan_and_depth_in_dfs_order: the plan paired with its
depth, followed by the recursively flattened children at depth one greater. -/
def get_plan_and_depth_helper : SubQueryPlan → Nat → List (SubQueryPlan × Nat)
  | .mk plan_id query_ast schema_id children, depth =>
    (SubQueryPlan.mk plan_id query_ast schema_id children, depth) ::
      get_plan_and_depth_helper_list children (depth + 1)

/-- The loop of the helper over a child list. -/
def get_plan_and_depth_helper_list : List SubQueryPlan → Nat → List (SubQueryPlan × Nat)
  | [], _ => []
  | p :: rest, depth =>
    get_plan_and_depth_helper p depth ++ get_plan_and_depth_helper_list rest depth

end

/-- The embedding of get_plan_and_depth_in_dfs_order: topologically sorted
plan and depth pairs, root first at depth 0. -/
def get_plan_and_depth_in_dfs_order (query_plan : SubQueryPlan) :
    List (SubQueryPlan × Nat) :=
  get_plan_and_depth_helper query_plan 0

/-- Plans of a plan tree in the order the execution engine visits them. -/
def plans_in_dfs_order (query_plan : SubQueryPlan) : List SubQueryPlan :=
  (get_plan_and_depth_in_dfs_order query_plan).map Prod.fst

/-- A join index: each distinct value of the join column mapped to the ordered
list of row positions where it appears. -/
abbrev JoinIndex := List (Value × List Nat)

/-- The embedding of dict.setdefault(key, []).append(element): append the
element to the list registered at the key, creating the entry if absent. -/
def append_at_key {κ ν : Type} [DecidableEq κ] :
    List (κ × List ν) → κ → ν → List (κ × List ν)
  | [], k, v => [(k, [v])]
  | p :: rest, k, v =>
    if p.1 = k then (p.1, p.2 ++ [v]) :: rest else p :: append_at_key rest k v

/-- The loop of make_join_index_for_output over enumerate(results): read the
join column by direct indexing, raising KeyError when a row lacks it, and
record the row position under that value. -/
def make_join_index_rows :
    List Row → String → Nat → JoinIndex → Except RunError JoinIndex
  | [], _, _, join_index => .ok join_index
  | row :: rest, join_output_name, row_index, join_index =>
    match lookup_assoc row join_output_name with
    | none => .error .keyError
    | some join_value =>
      make_join_index_rows rest join_output_name (row_index + 1)
        (append_at_key join_index join_value row_index)

/-- The embedding of make_join_index_for_output. -/
def make_join_index_for_output (results : List Row) (join_output_name : String) :
    Except RunError JoinIndex :=
  make_join_index_rows results join_output_name 0 []

/-- The loop of make_join_indexes over the join descriptors, carrying the dict
built so far.  A child plan id already registered triggers the defensive
AssertionError about unreachable code. -/
def make_join_indexes_loop :
    List OutputJoinDescriptor → List (Nat × List Row) → List (Nat × JoinIndex) →
    Except RunError (List (Nat × JoinIndex))
  | [], _, acc => .ok acc
  | join_descriptor :: rest, result_components_by_plan_id, acc =>
    if (lookup_assoc acc join_descriptor.child_plan_id).isSome then
      .error .assertionError
    else
      match lookup_assoc result_components_by_plan_id join_descriptor.child_plan_id with
      | none => .error .keyError
      | some child_results =>
        match make_join_index_for_output child_results join_descriptor.output_names.2 with
        | .error e => .error e
        | .ok join_index =>
          make_join_indexes_loop rest result_components_by_plan_id
            (acc ++ [(join_descriptor.child_plan_id, join_index)])

/-- The embedding of make_join_indexes: a dict from child plan id to the join
index between its rows and its parents' rows. -/
def make_join_indexes (query_plan_join_descriptors : List OutputJoinDescriptor)
    (result_components_by_plan_id : List (Nat × List Row)) :
    Except RunError (List (Nat × JoinIndex)) :=
  make_join_indexes_loop query_plan_join_descriptors result_components_by_plan_id []

/-- The expression join_index.get(join_value, []): matched row positions, or
the empty list when the value is absent from the index. -/
def index_get (join_index : JoinIndex) (join_value : Value) : List Nat :=
  (lookup_assoc join_index join_value).getD []

/-- The inner loop of join_results for one current row: each matched child
row position is resolved by list indexing, raising IndexError when out of
range, and contributes the field-wise union of the two rows. -/
def join_rows_of_matches (joining_results : List Row) (current_row : Row) :
    List Nat → Except RunError (List Row)
  | [] => .ok []
  | join_matched_index :: rest =>
    match joining_results.get? join_matched_index with
    | none => .error .indexError
    | some joining_row =>
      match join_rows_of_matches joining_results current_row rest with
      | .error e => .error e
      | .ok tail => .ok (dict_union current_row joining_row :: tail)

/-- The outer loop of join_results over the accumulating stream: read the
parent-side join value of each current row by direct indexing, look it up in
the child index, and emit the merged rows of all matches. -/
def join_all_rows (joining_results : List Row) (join_index : JoinIndex)
    (join_from_key : String) : List Row → Except RunError (List Row)
  | [] => .ok []
  | current_row :: rest =>
    match lookup_assoc current_row join_from_key with
    | none => .error .keyError
    | some join_value =>
      match join_rows_of_matches joining_results current_row
          (index_get join_index join_value) with
      | .error e => .error e
      | .ok matched =>
        match join_all_rows joining_results join_index join_from_key rest with
        | .error e => .error e
        | .ok tail => .ok (matched ++ tail)

/-- The embedding of join_results: process descriptors left to right in their
discovery order, threading the accumulating row stream through each child
join. -/
def join_results (result_components_by_plan_id : List (Nat × List Row))
    (join_indexes_by_plan_id : List (Nat × JoinIndex)) (current_results : List Row) :
    List OutputJoinDescriptor → Except RunError (List Row)
  | [] => .ok current_results
  | next_join_descriptor :: remaining_join_descriptors =>
    match lookup_assoc join_indexes_by_plan_id next_join_descriptor.child_plan_id with
    | none => .error .keyError
    | some join_index =>
      match lookup_assoc result_components_by_plan_id
          next_join_descriptor.child_plan_id with
      | none => .error .keyError
      | some joining_results =>
        match join_all_rows joining_results join_index
            next_join_descriptor.output_names.1 current_results with
        | .error e => .error e
        | .ok next_results =>
          join_results result_components_by_plan_id join_indexes_by_plan_id
            next_results remaining_join_descriptors

/-- The embedding of drop_intermediate_outputs: remove the named columns from
every row, keeping the remaining fields in order. -/
def drop_intermediate_outputs (columns_to_drop : List String) (results : List Row) :
    List Row :=
  results.map (fun row => row.filter (fun p => !columns_to_drop.contains p.1))

/-- An externally supplied per-schema executor: it receives the sub-query AST
(standing for its print_ast serialization) and the runtime arguments, and
returns a list of result rows. -/
abbrev ExecutionFunc := GAst → Row → List Row

mutual

/-- Runtime variable names referenced by a directive argument value: strings
with a dollar prefix contribute the name after the prefix. -/
def gvalue_runtime_vars : GValue → List String
  | .string s =>
    match s.data with
    | '$' :: rest => [String.mk rest]
    | _ => []
  | .list vs => gvalue_list_runtime_vars vs

/-- Runtime variable names referenced by a list of directive argument values. -/
def gvalue_list_runtime_vars : List GValue → List String
  | [] => []
  | v :: rest => gvalue_runtime_vars v ++ gvalue_list_runtime_vars rest

end

/-- Runtime variable names referenced by the arguments of one directive. -/
def directives_runtime_vars (directives : List Directive) : List String :=
  (directives.map (fun d =>
    (d.arguments.map (fun a => gvalue_runtime_vars a.value)).flatten)).flatten

mutual

/-- Modelled from the spec: get_query_runtime_arguments, imported by the
execution engine from the schema_transformation utilities that are not part
of the sources under study, determines the subset of bound-variable names the
fragment references.  A fragment references a variable through a dollar
placeholder in a directive argument, as in the membership filters the plan
builder injects. -/
def get_query_runtime_arguments : GAst → List String
  | .field _ directives none => directives_runtime_vars directives
  | .field _ directives (some selections) =>
    directives_runtime_vars directives ++ runtime_arguments_in_selections selections
  | .inlineFragment none => []
  | .inlineFragment (some selections) => runtime_arguments_in_selections selections
  | .operationDefinition none => []
  | .operationDefinition (some selections) => runtime_arguments_in_selections selections

/-- Runtime variable names referenced anywhere in a selection list. -/
def runtime_arguments_in_selections : List GAst → List String
  | [] => []
  | s :: rest => get_query_runtime_arguments s ++ runtime_arguments_in_selections rest

end

/-- The dict comprehension building subquery_args: one entry per runtime
argument name of the fragment, read from the accumulated argument pool by
direct indexing, raising KeyError when absent. -/
def pick_args (full_query_args : Row) : List String → Row → Except RunError Row
  | [], acc => .ok acc
  | argument_name :: rest, acc =>
    match lookup_assoc full_query_args argument_name with
    | none => .error .keyError
    | some v => pick_args full_query_args rest (insert_assoc acc argument_name v)

/-- Arguments passed to the executor of one sub-query: the argument pool
restricted to the runtime argument names of its fragment. -/
def compute_subquery_args (full_query_args : Row) (query_ast : GAst) :
    Except RunError Row :=
  pick_args full_query_args (get_query_runtime_arguments query_ast) []

/-- The loop building stitching_output_names_by_parent_plan_id: each join
descriptor appends its output-name pair under its parent plan id. -/
def build_stitching_map :
    List OutputJoinDescriptor → List (Nat × List (String × String)) →
    List (Nat × List (String × String))
  | [], acc => acc
  | join_descriptor :: rest, acc =>
    build_stitching_map rest
      (append_at_key acc join_descriptor.parent_plan_id join_descriptor.output_names)

/-- The embedding of stitching_output_names_by_parent_plan_id. -/
def stitching_output_names_by_parent_plan_id
    (output_join_descriptors : List OutputJoinDescriptor) :
    List (Nat × List (String × String)) :=
  build_stitching_map output_join_descriptors []

/-- Set insertion in first-arrival order: the embedding of adding one value
to a Python set of propagated stitching values. -/
def add_to_value_set (s : List Value) (v : Value) : List Value :=
  if v ∈ s then s else s ++ [v]

/-- The collection of one output column across the produced rows: the value is
read with a None default and None values are intentionally discarded, so the
result is the set of distinct non-null values in first-arrival order. -/
def collect_output_column (output_name : String) : List Row → List Value → List Value
  | [], acc => acc
  | row :: rest, acc =>
    match lookup_assoc row output_name with
    | none => collect_output_column output_name rest acc
    | some v =>
      if v = .null then collect_output_column output_name rest acc
      else collect_output_column output_name rest (add_to_value_set acc v)

/-- The embedding of building child_extra_output_values and new_query_args in
one step: for each stitching output name of the executing plan, the distinct
non-null values of that column across its just-produced rows. -/
def collect_child_extra_output_values (output_names : List String)
    (rows : List Row) : List (String × List Value) :=
  output_names.map (fun n => (n, collect_output_column n rows []))

/-- First-arrival deduplication of the stitching output names, the embedding
of the set comprehension building child_extra_output_names. -/
def dedup_names (l : List String) : List String :=
  l.foldl (fun acc n => if n ∈ acc then acc else acc ++ [n]) []

/-- One iteration of the execution loop for one plan: compute the argument
subset for the fragment, call the registered executor, record the rows under
the plan id, and write the propagated stitching values of each child-bound
output name into the argument pool.  Besides the updated state, the arguments
actually handed to the executor and the rows it returned are exposed to make
the executor call observable in theorems; the loop discards them. -/
def step_plan (schema_id_to_execution_func : String → Option ExecutionFunc)
    (stitching_map : List (Nat × List (String × String)))
    (st : List (Nat × List Row) × Row) (query_plan : SubQueryPlan) :
    Except RunError (Row × List Row × (List (Nat × List Row) × Row)) :=
  match compute_subquery_args st.2 query_plan.query_ast with
  | .error e => .error e
  | .ok subquery_args =>
    match schema_id_to_execution_func query_plan.schema_id with
    | none => .error .keyError
    | some execution_func =>
      let subquery_result := execution_func query_plan.query_ast subquery_args
      let new_results := insert_assoc st.1 query_plan.plan_id subquery_result
      let child_extra_output_names := dedup_names
        (((lookup_assoc stitching_map query_plan.plan_id).getD []).map Prod.fst)
      let new_query_args :=
        collect_child_extra_output_values child_extra_output_names subquery_result
      let new_full_args := new_query_args.foldl
        (fun acc p => insert_assoc acc p.1 (Value.list p.2)) st.2
      .ok (subquery_args, subquery_result, (new_results, new_full_args))

/-- The execution loop over the plans in depth-first order, threading the
per-plan result map and the argument pool. -/
def execute_plans (schema_id_to_execution_func : String → Option ExecutionFunc)
    (stitching_map : List (Nat × List (String × String))) :
    List SubQueryPlan → (List (Nat × List Row) × Row) →
    Except RunError (List (Nat × List Row) × Row)
  | [], st => .ok st
  | query_plan :: rest, st =>
    match step_plan schema_id_to_execution_func stitching_map st query_plan with
    | .error e => .error e
    | .ok (_, _, st') => execute_plans schema_id_to_execution_func stitching_map rest st'

/-- The embedding of execute_query_plan: run every sub-plan in depth-first
order while propagating stitching values, then build the join indexes, join
all result sets starting from the root rows, and project away the
intermediate output columns. -/
def execute_query_plan (schema_id_to_execution_func : String → Option ExecutionFunc)
    (query_plan_descriptor : QueryPlanDescriptor) (query_args : Row) :
    Except RunError (List Row) :=
  let stitching_map := stitching_output_names_by_parent_plan_id
    query_plan_descriptor.output_join_descriptors
  let plan_sequence := plans_in_dfs_order query_plan_descriptor.root_sub_query_plan
  match execute_plans schema_id_to_execution_func stitching_map plan_sequence
      ([], query_args) with
  | .error e => .error e
  | .ok (result_components_by_plan_id, _) =>
    match make_join_indexes query_plan_descriptor.output_join_descriptors
        result_components_by_plan_id with
    | .error e => .error e
    | .ok join_indexes_by_plan_id =>
      match lookup_assoc result_components_by_plan_id
          query_plan_descriptor.root_sub_query_plan.plan_id with
      | none => .error .keyError
      | some root_rows =>
        match join_results result_components_by_plan_id join_indexes_by_plan_id
            root_rows query_plan_descriptor.output_join_descriptors with
        | .error e => .error e
        | .ok joined_results =>
          .ok (drop_intermediate_outputs
            query_plan_descriptor.intermediate_output_names joined_results)

/-- Relation between a fragment and its rewrite: the two trees agree
everywhere except along a single path from the root to one field that matches
the target output name; at that field exactly one new filter directive is
appended after all pre-existing directives, of membership kind with op_name
in_collection, whose sole value argument is a one-element list containing a
placeholder for the variable with the given name; the name, the pre-existing
directives and the selection set of that field, and every selection off the
path, are reused unchanged. -/
inductive FilterAppendedAt (out v : String) : GAst → GAst → Prop where
  | here (name : String) (directives : List Directive)
      (selectionSet : Option (List GAst))
      (hm : directives.any (fun d => is_output_directive_with_name d out) = true) :
      FilterAppendedAt out v (.field name directives selectionSet)
        (.field name
          (directives ++
            [{ name := filter_directive_name,
               arguments := [
                 { name := "op_name", value := .string "in_collection" },
                 { name := "value", value := .list [.string ("$" ++ v)] }] }])
          selectionSet)
  | there_field (name : String) (directives : List Directive)
      (pre : List GAst) (s s' : GAst) (post : List GAst)
      (hm : directives.any (fun d => is_output_directive_with_name d out) = false)
      (h : FilterAppendedAt out v s s') :
      FilterAppendedAt out v
        (.field name directives (some (pre ++ s :: post)))
        (.field name directives (some (pre ++ s' :: post)))
  | there_inline (pre : List GAst) (s s' : GAst) (post : List GAst)
      (h : FilterAppendedAt out v s s') :
      FilterAppendedAt out v
        (.inlineFragment (some (pre ++ s :: post)))
        (.inlineFragment (some (pre ++ s' :: post)))
  | there_operation (pre : List GAst) (s s' : GAst) (post : List GAst)
      (h : FilterAppendedAt out v s s') :
      FilterAppendedAt out v
        (.operationDefinition (some (pre ++ s :: post)))
        (.operationDefinition (some (pre ++ s' :: post)))

mutual

/-- Full classification of the rewrite by the number of outermost matching
fields: zero matches return the input unchanged, exactly one match returns a
rewrite related to the input by FilterAppendedAt, and two or more matches
raise the validation error. -/
theorem add_filter_spec : ∀ (ast : GAst) (out v : String),
    (count_outermost_output_matches ast out = 0 →
      add_filter_at_field_with_output ast out v = .ok (false, ast)) ∧
    (count_outermost_output_matches ast out = 1 →
      ∃ ast', add_filter_at_field_with_output ast out v = .ok (true, ast') ∧
        FilterAppendedAt out v ast ast') ∧
    (2 ≤ count_outermost_output_matches ast out →
      add_filter_at_field_with_output ast out v = .error .validation)
  | .field name directives none, out, v => by
    cases hany : directives.any (fun d => is_output_directive_with_name d out) with
    | true =>
      refine ⟨?_, ?_, ?_⟩ <;>
        simp [count_outermost_output_matches, add_filter_at_field_with_output, hany]
      exact FilterAppendedAt.here name directives none hany
    | false =>
      refine ⟨?_, ?_, ?_⟩ <;>
        simp [count_outermost_output_matches, add_filter_at_field_with_output, hany]
  | .field name directives (some selections), out, v => by
    cases hany : directives.any (fun d => is_output_directive_with_name d out) with
    | true =>
      refine ⟨?_, ?_, ?_⟩ <;>
        simp [count_outermost_output_matches, add_filter_at_field_with_output, hany]
      exact FilterAppendedAt.here name directives (some selections) hany
    | false =>
      have hsel := add_filter_selections_spec selections out v
      refine ⟨?_, ?_, ?_⟩ <;>
        intro hcount <;>
        simp only [count_outermost_output_matches, hany, if_false,
          Bool.false_eq_true] at hcount
      · simp [add_filter_at_field_with_output, hany, hsel.1 hcount]
      · obtain ⟨pre, s, s', post, hdecomp, hres, hrel⟩ := hsel.2.1 hcount
        refine ⟨.field name directives (some (pre ++ s' :: post)), ?_, ?_⟩
        · simp [add_filter_at_field_with_output, hany, hres]
        · rw [hdecomp]
          exact FilterAppendedAt.there_field name directives pre s s' post hany hrel
      · simp [add_filter_at_field_with_output, hany, hsel.2.2 hcount]
  | .inlineFragment none, out, v => by
    refine ⟨?_, ?_, ?_⟩ <;>
      simp [count_outermost_output_matches, add_filter_at_field_with_output]
  | .inlineFragment (some selections), out, v => by
    have hsel := add_filter_selections_spec selections out v
    refine ⟨?_, ?_, ?_⟩ <;>
      intro hcount <;>
      simp only [count_outermost_output_matches] at hcount
    · simp [add_filter_at_field_with_output, hsel.1 hcount]
    · obtain ⟨pre, s, s', post, hdecomp, hres, hrel⟩ := hsel.2.1 hcount
      refine ⟨.inlineFragment (some (pre ++ s' :: post)), ?_, ?_⟩
      · simp [add_filter_at_field_with_output, hres]
      · rw [hdecomp]
        exact FilterAppendedAt.there_inline pre s s' post hrel
    · simp [add_filter_at_field_with_output, hsel.2.2 hcount]
  | .operationDefinition none, out, v => by
    refine ⟨?_, ?_, ?_⟩ <;>
      simp [count_outermost_output_matches, add_filter_at_field_with_output]
  | .operationDefinition (some selections), out, v => by
    have hsel := add_filter_selections_spec selections out v
    refine ⟨?_, ?_, ?_⟩ <;>
      intro hcount <;>
      simp only [count_outermost_output_matches] at hcount
    · simp [add_filter_at_field_with_output, hsel.1 hcount]
    · obtain ⟨pre, s, s', post, hdecomp, hres, hrel⟩ := hsel.2.1 hcount
      refine ⟨.operationDefinition (some (pre ++ s' :: post)), ?_, ?_⟩
      · simp [add_filter_at_field_with_output, hres]
      · rw [hdecomp]
        exact FilterAppendedAt.there_operation pre s s' post hrel
    · simp [add_filter_at_field_with_output, hsel.2.2 hcount]

/-- The same classification for the loop over one selection list: with exactly
one outermost match the changed selection is unique and every other selection
is returned unchanged, so the output list differs from the input at exactly
one position. -/
theorem add_filter_selections_spec : ∀ (sels : List GAst) (out v : String),
    (count_outermost_in_selections sels out = 0 →
      add_filter_in_selections sels out v = .ok (false, sels)) ∧
    (count_outermost_in_selections sels out = 1 →
      ∃ pre s s' post, sels = pre ++ s :: post ∧
        add_filter_in_selections sels out v = .ok (true, pre ++ s' :: post) ∧
        FilterAppendedAt out v s s') ∧
    (2 ≤ count_outermost_in_selections sels out →
      add_filter_in_selections sels out v = .error .validation)
  | [], out, v => by
    refine ⟨?_, ?_, ?_⟩ <;>
      simp [count_outermost_in_selections, add_filter_in_selections]
  | sel :: rest, out, v => by
    have hhead := add_filter_spec sel out v
    have hrest := add_filter_selections_spec rest out v
    refine ⟨?_, ?_, ?_⟩ <;>
      intro hcount <;>
      simp only [count_outermost_in_selections] at hcount
    · have h1 : count_outermost_output_matches sel out = 0 := by omega
      have h2 : count_outermost_in_selections rest out = 0 := by omega
      simp [add_filter_in_selections, hhead.1 h1, hrest.1 h2]
    · rcases Nat.lt_or_ge (count_outermost_output_matches sel out) 1 with hc | hc
      · have h1 : count_outermost_output_matches sel out = 0 := by omega
        have h2 : count_outermost_in_selections rest out = 1 := by omega
        obtain ⟨pre, s, s', post, hdecomp, hres, hrel⟩ := hrest.2.1 h2
        refine ⟨sel :: pre, s, s', post, by simp [hdecomp], ?_, hrel⟩
        simp [add_filter_in_selections, hhead.1 h1, hres]
      · have h1 : count_outermost_output_matches sel out = 1 := by omega
        have h2 : count_outermost_in_selections rest out = 0 := by omega
        obtain ⟨sel', hres, hrel⟩ := hhead.2.1 h1
        refine ⟨[], sel, sel', rest, by simp, ?_, hrel⟩
        simp [add_filter_in_selections, hres, hrest.1 h2]
    · rcases Nat.lt_or_ge (count_outermost_output_matches sel out) 1 with hc | hc
      · have h1 : count_outermost_output_matches sel out = 0 := by omega
        have h2 : 2 ≤ count_outermost_in_selections rest out := by omega
        simp [add_filter_in_selections, hhead.1 h1, hrest.2.2 h2]
      · rcases Nat.lt_or_ge (count_outermost_output_matches sel out) 2 with hc2 | hc2
        · have h1 : count_outermost_output_matches sel out = 1 := by omega
          obtain ⟨sel', hres, hrel⟩ := hhead.2.1 h1
          rcases Nat.lt_or_ge (count_outermost_in_selections rest out) 2 with hr2 | hr2
          · have h2 : count_outermost_in_selections rest out = 1 := by omega
            obtain ⟨pre, s, s', post, hdecomp, hresr, hrelr⟩ := hrest.2.1 h2
            simp [add_filter_in_selections, hres, hresr]
          · simp [add_filter_in_selections, hres, hrest.2.2 hr2]
        · simp [add_filter_in_selections, hhead.2.2 hc2]

end

/-- An unchanged result of the rewrite returns the input fragment itself. -/
theorem add_filter_unchanged_eq (ast : GAst) (out v : String) (ast' : GAst)
    (h : add_filter_at_field_with_output ast out v = .ok (false, ast')) : ast' = ast := by
  have hspec := add_filter_spec ast out v
  rcases hzero : count_outermost_output_matches ast out with _ | n
  · rw [hspec.1 hzero] at h
    exact (Prod.mk.injEq _ _ _ _ ▸ Except.ok.injEq _ _ ▸ h).2.symm
  · rcases n with _ | m
    · obtain ⟨a', hres, _⟩ := hspec.2.1 hzero
      rw [hres] at h
      simp at h
    · have : 2 ≤ count_outermost_output_matches ast out := by omega
      rw [hspec.2.2 this] at h
      simp at h

/-- A changed result of the rewrite is related to the input fragment by
FilterAppendedAt. -/
theorem add_filter_changed_rel (ast : GAst) (out v : String) (ast' : GAst)
    (h : add_filter_at_field_with_output ast out v = .ok (true, ast')) :
    FilterAppendedAt out v ast ast' := by
  have hspec := add_filter_spec ast out v
  rcases hzero : count_outermost_output_matches ast out with _ | n
  · rw [hspec.1 hzero] at h
    simp at h
  · rcases n with _ | m
    · obtain ⟨a', hres, hrel⟩ := hspec.2.1 hzero
      rw [hres] at h
      simp only [Except.ok.injEq, Prod.mk.injEq, true_and] at h
      exact h ▸ hrel
    · have : 2 ≤ count_outermost_output_matches ast out := by omega
      rw [hspec.2.2 this] at h
      simp at h

/-- Well-formedness of one directive as the original expects it: a directive
named output carries at least one argument and its first argument is a string
value.  On a malformed output directive the original would raise an
IndexError or AttributeError instead of classifying the fragment. -/
def wf_output_directive (d : Directive) : Bool :=
  if d.name = output_directive_name then
    match d.arguments with
    | [] => false
    | a :: _ =>
      match a.value with
      | .string _ => true
      | .list _ => false
  else true

mutual

/-- Every output directive anywhere in the fragment is well-formed. -/
def wf_output_directives : GAst → Bool
  | .field _ directives none => directives.all wf_output_directive
  | .field _ directives (some selections) =>
    directives.all wf_output_directive && wf_output_directives_in_selections selections
  | .inlineFragment none => true
  | .inlineFragment (some selections) => wf_output_directives_in_selections selections
  | .operationDefinition none => true
  | .operationDefinition (some selections) => wf_output_directives_in_selections selections

/-- Every output directive in a selection list is well-formed. -/
def wf_output_directives_in_selections : List GAst → Bool
  | [] => true
  | s :: rest => wf_output_directives s && wf_output_directives_in_selections rest

end

/-- A fragment in which a field carrying an output directive with out_name x
contains, nested inside its own selection set, another field carrying an
output directive with the same out_name x. -/
def c3_nested_fragment : GAst :=
  .operationDefinition (some [.field "outer"
    [{ name := output_directive_name,
       arguments := [{ name := "out_name", value := .string "x" }] }]
    (some [.field "inner"
      [{ name := output_directive_name,
         arguments := [{ name := "out_name", value := .string "x" }] }]
      none])])

/-- C3 counterexample: the fragment c3_nested_fragment has two fields carrying
an output declaration named x, yet plan building for a connection targeting x
succeeds instead of failing with a validation error: the rewrite returns from
the outer matched field without inspecting its subtree. -/
theorem nested_output_match_not_detected :
    count_output_matches_total c3_nested_fragment "x" = 2 ∧
    (make_query_plan (SubQueryNode.mk (leaf_fragment "r") "s1"
        [("p", "x", SubQueryNode.mk c3_nested_fragment "s2" [])]) []).toOption.isSome
      = true :=
  ⟨rfl, rfl⟩

/-- C3: for a single-connection plan build over a fragment whose output
directives are well-formed, the outcome is classified by the number of
outermost fields matching the target output name, a matching field nested
inside another matching field being invisible: zero matches fail with the
internal-consistency assertion error, exactly one match succeeds, and two or
more outermost matches fail with the validation error. -/
theorem single_connection_build_classification
    (root_ast child_ast : GAst)
    (root_schema child_schema parent_out child_out : String)
    (names : List String)
    (hwf : wf_output_directives child_ast = true) :
    (count_outermost_output_matches child_ast child_out = 0 →
      make_query_plan (SubQueryNode.mk root_ast root_schema
          [(parent_out, child_out, SubQueryNode.mk child_ast child_schema [])]) names
        = .error .assertion) ∧
    (count_outermost_output_matches child_ast child_out = 1 →
      (make_query_plan (SubQueryNode.mk root_ast root_schema
          [(parent_out, child_out, SubQueryNode.mk child_ast child_schema [])])
        names).toOption.isSome = true) ∧
    (2 ≤ count_outermost_output_matches child_ast child_out →
      make_query_plan (SubQueryNode.mk root_ast root_schema
          [(parent_out, child_out, SubQueryNode.mk child_ast child_schema [])]) names
        = .error .validation) := by
  have hspec := add_filter_spec child_ast child_out parent_out
  refine ⟨?_, ?_, ?_⟩ <;> intro hcount
  · simp [make_query_plan, make_query_plan_recursive, make_plans_for_connections,
      SubQueryNode.query_ast, hspec.1 hcount]
  · obtain ⟨ast', hres, _⟩ := hspec.2.1 hcount
    simp [make_query_plan, make_query_plan_recursive, make_plans_for_connections,
      SubQueryNode.query_ast, SubQueryNode.schema_id, hres, Except.toOption]
  · simp [make_query_plan, make_query_plan_recursive, make_plans_for_connections,
      SubQueryNode.query_ast, hspec.2.2 hcount]

/-- Witness for the classification theorem at a concrete single-match input. -/
theorem single_connection_build_classification_witness :
    wf_output_directives (leaf_fragment "x") = true ∧
    count_outermost_output_matches (leaf_fragment "x") "x" = 1 ∧
    (make_query_plan (SubQueryNode.mk (leaf_fragment "r") "s1"
        [("p", "x", SubQueryNode.mk (leaf_fragment "x") "s2" [])]) []).toOption.isSome
      = true :=
  ⟨rfl, rfl,
    (single_connection_build_classification (leaf_fragment "r") (leaf_fragment "x")
      "s1" "s2" "p" "x" [] rfl).2.1 rfl⟩

/-- C7: predicate injection is a pure rewrite; when no field matches, the
original fragment is returned unchanged, and when the rewrite reports a
change, input and output agree on every subtree off the single path to the
matched field, as captured by FilterAppendedAt. -/
theorem predicate_injection_frame_effect :
    (∀ (ast : GAst) (out v : String) (ast' : GAst),
      add_filter_at_field_with_output ast out v = .ok (false, ast') → ast' = ast) ∧
    (∀ (ast : GAst) (out v : String) (ast' : GAst),
      add_filter_at_field_with_output ast out v = .ok (true, ast') →
        FilterAppendedAt out v ast ast') :=
  ⟨add_filter_unchanged_eq, add_filter_changed_rel⟩

/-- The fragment leaf_fragment b after injecting a membership filter bound to
the variable a at the field carrying the output directive named b. -/
def leaf_fragment_with_filter : GAst :=
  .operationDefinition (some [.field "Animal" [] (some [
    .field "name"
      [{ name := output_directive_name,
         arguments := [{ name := "out_name", value := .string "b" }] },
       get_in_collection_filter_directive "a"]
      none])])

/-- Witness for the frame-effect theorem at a concrete changed input. -/
theorem predicate_injection_frame_effect_witness :
    add_filter_at_field_with_output (leaf_fragment "b") "b" "a" =
      .ok (true, leaf_fragment_with_filter) ∧
    FilterAppendedAt "b" "a" (leaf_fragment "b") leaf_fragment_with_filter :=
  ⟨rfl, predicate_injection_frame_effect.2 (leaf_fragment "b") "b" "a"
    leaf_fragment_with_filter rfl⟩

/-- C8: a field whose directives match the target output name is rewritten by
appending exactly one new directive after all pre-existing ones, namely the
in_collection membership filter whose sole value argument is a one-element
list holding a placeholder for the named variable, with the field name, the
pre-existing directives and the children unchanged; and every changed rewrite
is of this shape at the matched field, as captured by FilterAppendedAt. -/
theorem membership_filter_appended_on_match :
    (∀ (name : String) (directives : List Directive)
        (selectionSet : Option (List GAst)) (out v : String),
      directives.any (fun d => is_output_directive_with_name d out) = true →
      add_filter_at_field_with_output (.field name directives selectionSet) out v =
        .ok (true, .field name
          (directives ++ [get_in_collection_filter_directive v]) selectionSet)) ∧
    (∀ (v : String),
      get_in_collection_filter_directive v =
        { name := filter_directive_name,
          arguments := [
            { name := "op_name", value := .string "in_collection" },
            { name := "value", value := .list [.string ("$" ++ v)] }] }) ∧
    (∀ (ast : GAst) (out v : String) (ast' : GAst),
      add_filter_at_field_with_output ast out v = .ok (true, ast') →
        FilterAppendedAt out v ast ast') := by
  refine ⟨?_, fun v => rfl, add_filter_changed_rel⟩
  intro name directives selectionSet out v hany
  cases selectionSet <;> simp [add_filter_at_field_with_output, hany]

/-- Witness for the appended-filter theorem at a concrete matching field. -/
theorem membership_filter_appended_on_match_witness :
    ([{ name := output_directive_name,
        arguments := [{ name := "out_name", value := .string "d" }] }] :
      List Directive).any (fun d => is_output_directive_with_name d "d") = true ∧
    add_filter_at_field_with_output
      (.field "pet"
        [{ name := output_directive_name,
           arguments := [{ name := "out_name", value := .string "d" }] }] none)
      "d" "q" =
      .ok (true, .field "pet"
        [{ name := output_directive_name,
           arguments := [{ name := "out_name", value := .string "d" }] },
         get_in_collection_filter_directive "q"] none) :=
  ⟨rfl, membership_filter_appended_on_match.1 "pet"
    [{ name := output_directive_name,
       arguments := [{ name := "out_name", value := .string "d" }] }] none "d" "q" rfl⟩

/-- Executors for every schema id that return no rows, used to drive a full
execution of the duplicated-plan-id tree up to the join phase. -/
def all_empty_executors : String → Option ExecutionFunc := fun _ => some (fun _ _ => [])

/-- C1: evaluation at the failing input: plan_id_test_node declares three
connections and make_query_plan produces exactly three OutputJoinDescriptors,
but the preorder plan ids come out as 0, 1, 2, 2 instead of the four distinct
ids 0, 1, 2, 3: the recursion never threads the ids consumed inside a child
subtree back to the loop over the remaining siblings, so the second child of
the root reuses plan id 2 already given to a grandchild. -/
theorem make_query_plan_plan_id_duplication :
    (make_query_plan plan_id_test_node []).map
      (fun d => (preorder_plan_ids d.root_sub_query_plan,
        d.output_join_descriptors.length)) = .ok ([0, 1, 2, 2], 3) := rfl

/-- C2: evaluation at the failing input: executing the plan descriptor that
make_query_plan builds from plan_id_test_node reaches the defensive duplicate
plan-id check in join-index construction, because two join descriptors carry
child plan id 2, and the whole execution aborts with the internal-consistency
AssertionError that the source labels unreachable. -/
theorem duplicate_plan_id_assertion_reachable :
    (match make_query_plan plan_id_test_node [] with
      | .ok d => execute_query_plan all_empty_executors d []
      | .error _ => .ok []) = .error .assertionError := rfl

/-- Membership in the embedding of set.add: the element added when not null. -/
theorem mem_add_to_value_set (s : List Value) (v x : Value) :
    x ∈ add_to_value_set s v ↔ x ∈ s ∨ x = v := by
  unfold add_to_value_set
  by_cases hv : v ∈ s
  · simp only [hv, if_true]
    constructor
    · exact Or.inl
    · rintro (h | rfl)
      · exact h
      · exact hv
  · simp [hv]

/-- Membership in the collected column values: exactly the non-null values of
the column across the rows, on top of the accumulator. -/
theorem mem_collect_output_column (n : String) :
    ∀ (rows : List Row) (acc : List Value) (x : Value),
      x ∈ collect_output_column n rows acc ↔
        x ∈ acc ∨ (x ≠ .null ∧ ∃ r ∈ rows, lookup_assoc r n = some x) := by
  intro rows
  induction rows with
  | nil => intro acc x; simp [collect_output_column]
  | cons r rest ih =>
    intro acc x
    cases hl : lookup_assoc r n with
    | none =>
      have step : collect_output_column n (r :: rest) acc =
          collect_output_column n rest acc := by
        simp [collect_output_column, hl]
      rw [step, ih]
      constructor
      · rintro (h | ⟨hx, s, hs, hlook⟩)
        · exact Or.inl h
        · exact Or.inr ⟨hx, s, List.mem_cons_of_mem _ hs, hlook⟩
      · rintro (h | ⟨hx, s, hs, hlook⟩)
        · exact Or.inl h
        · rcases List.mem_cons.1 hs with rfl | hs'
          · rw [hl] at hlook; cases hlook
          · exact Or.inr ⟨hx, s, hs', hlook⟩
    | some v =>
      by_cases hnull : v = Value.null
      · have step : collect_output_column n (r :: rest) acc =
            collect_output_column n rest acc := by
          simp [collect_output_column, hl, hnull]
        rw [step, ih]
        constructor
        · rintro (h | ⟨hx, s, hs, hlook⟩)
          · exact Or.inl h
          · exact Or.inr ⟨hx, s, List.mem_cons_of_mem _ hs, hlook⟩
        · rintro (h | ⟨hx, s, hs, hlook⟩)
          · exact Or.inl h
          · rcases List.mem_cons.1 hs with rfl | hs'
            · rw [hl] at hlook
              cases hlook
              subst hnull
              exact absurd rfl hx
            · exact Or.inr ⟨hx, s, hs', hlook⟩
      · have step : collect_output_column n (r :: rest) acc =
            collect_output_column n rest (add_to_value_set acc v) := by
          simp [collect_output_column, hl, hnull]
        rw [step, ih]
        simp only [mem_add_to_value_set]
        constructor
        · rintro ((h | rfl) | ⟨hx, s, hs, hlook⟩)
          · exact Or.inl h
          · exact Or.inr ⟨hnull, r, List.mem_cons_self _ _, hl⟩
          · exact Or.inr ⟨hx, s, List.mem_cons_of_mem _ hs, hlook⟩
        · rintro (h | ⟨hx, s, hs, hlook⟩)
          · exact Or.inl (Or.inl h)
          · rcases List.mem_cons.1 hs with rfl | hs'
            · rw [hl] at hlook
              cases hlook
              exact Or.inl (Or.inr rfl)
            · exact Or.inr ⟨hx, s, hs', hlook⟩

/-- C4: null values are dropped when collecting propagated stitching values:
no value list written into the shared argument pool for a child-bound
variable ever contains null.  The join step, by contrast, registers null
child-side values in its index, so a null parent-side value can still match
there; see the accompanying counterexample. -/
theorem propagated_stitching_values_never_null
    (output_names : List String) (rows : List Row) (p : String × List Value)
    (hp : p ∈ collect_child_extra_output_values output_names rows) :
    Value.null ∉ p.2 := by
  intro hnull
  simp only [collect_child_extra_output_values, List.mem_map] at hp
  obtain ⟨n, _, rfl⟩ := hp
  rw [mem_collect_output_column] at hnull
  rcases hnull with h | ⟨hx, _⟩
  · cases h
  · exact hx rfl

/-- Witness for the never-null propagation theorem at a concrete input. -/
theorem propagated_stitching_values_never_null_witness :
    ("a", [Value.int 5]) ∈
      collect_child_extra_output_values ["a"] [[("a", Value.int 5)]] ∧
    Value.null ∉ [Value.int 5] :=
  ⟨by decide, propagated_stitching_values_never_null ["a"] [[("a", Value.int 5)]]
    ("a", [Value.int 5]) (by decide)⟩

/-- The two-connection-free tree whose child fragment outputs b_out, used for
the null-join execution. -/
def c4_node : SubQueryNode :=
  .mk (leaf_fragment "a_out") "s1"
    [("a_out", "b_out", .mk (leaf_fragment "b_out") "s2" [])]

/-- Executors returning a null parent-side join value from the root schema
and a null child-side join value from the child schema. -/
def c4_executors : String → Option ExecutionFunc := fun s =>
  if s = "s1" then some (fun _ _ => [[("id", .int 1), ("a_out", .null)]])
  else if s = "s2" then some (fun _ _ => [[("b_out", .null), ("val", .int 7)]])
  else none

/-- C4 counterexample: executing the plan built from c4_node produces an
output row whose parent-side join column a_out and child-side join column
b_out are both null: the null child value was registered in the join index
and the null parent value matched it, contradicting the claim that no output
row is ever produced by matching null against null. -/
theorem null_values_join_in_execution :
    (match make_query_plan c4_node [] with
      | .ok d => execute_query_plan c4_executors d []
      | .error _ => .ok []) =
    .ok [[("id", .int 1), ("a_out", .null), ("b_out", .null), ("val", .int 7)]] := rfl

mutual

/-- All plans of a plan tree in preorder: the tree itself followed by the
flattened subtrees of its children.  This is also the visiting order of
get_plan_and_depth_in_dfs_order. -/
def subtree_plans : SubQueryPlan → List SubQueryPlan
  | .mk plan_id query_ast schema_id children =>
    SubQueryPlan.mk plan_id query_ast schema_id children ::
      subtree_plans_of_list children

/-- All plans of a list of plan trees in preorder. -/
def subtree_plans_of_list : List SubQueryPlan → List SubQueryPlan
  | [] => []
  | p :: rest => subtree_plans p ++ subtree_plans_of_list rest

end

mutual

/-- Every child id exceeds the plan id, recursively through the tree. -/
def plan_ids_ascending : SubQueryPlan → Bool
  | .mk plan_id _ _ children => children_ids_above plan_id children

/-- Every root id of the list exceeds the bound, and every tree in the list
is itself ascending. -/
def children_ids_above : Nat → List SubQueryPlan → Bool
  | _, [] => true
  | bound, p :: rest =>
    decide (bound < p.plan_id) && plan_ids_ascending p && children_ids_above bound rest

end

mutual

/-- Plan trees built by the recursion carry child plans whose ids all exceed
the id of the plan being filled in, and each child tree is ascending. -/
theorem mqpr_ids_ascending : ∀ (node : SubQueryNode) (self_id next_id : Nat)
    (plans : List SubQueryPlan) (descs : List OutputJoinDescriptor),
    make_query_plan_recursive node self_id next_id = .ok (plans, descs) →
    self_id < next_id →
    children_ids_above self_id plans = true
  | .mk query_ast schema_id conns, self_id, next_id, plans, descs => by
    intro hok hlt
    simp only [make_query_plan_recursive] at hok
    exact mk_plans_ids_ascending conns self_id next_id plans descs hok hlt

/-- The connection loop version of the ascending-ids invariant. -/
theorem mk_plans_ids_ascending :
    ∀ (conns : List (String × String × SubQueryNode)) (self_id next_id : Nat)
      (plans : List SubQueryPlan) (descs : List OutputJoinDescriptor),
    make_plans_for_connections conns self_id next_id = .ok (plans, descs) →
    self_id < next_id →
    children_ids_above self_id plans = true
  | [], self_id, next_id, plans, descs => by
    intro hok hlt
    simp only [make_plans_for_connections, Except.ok.injEq, Prod.mk.injEq] at hok
    rw [← hok.1]
    rfl
  | (parent_out, child_out, child_node) :: rest, self_id, next_id, plans, descs => by
    intro hok hlt
    simp only [make_plans_for_connections] at hok
    rcases hf : add_filter_at_field_with_output child_node.query_ast child_out parent_out
      with e | ⟨changed, new_ast⟩ <;> rw [hf] at hok
    · cases hok
    · cases changed with
      | false => cases hok
      | true =>
        rcases hg : make_query_plan_recursive child_node next_id (next_id + 1)
          with e | ⟨grandchild_plans, child_descs⟩ <;> rw [hg] at hok
        · cases hok
        · rcases hr : make_plans_for_connections rest self_id (next_id + 1)
            with e | ⟨sibling_plans, sibling_descs⟩ <;> rw [hr] at hok
          · cases hok
          · have hok' := Prod.mk.injEq _ _ _ _ ▸ Except.ok.inj hok
            rw [← hok'.1]
            have hchild := mqpr_ids_ascending child_node next_id (next_id + 1)
              grandchild_plans child_descs hg (Nat.lt_succ_self _)
            have hrest := mk_plans_ids_ascending rest self_id (next_id + 1)
              sibling_plans sibling_descs hr (Nat.lt_succ_of_lt hlt)
            simp [children_ids_above, plan_ids_ascending, SubQueryPlan.plan_id,
              hlt, hchild, hrest]

end

mutual

/-- In an ascending plan tree, every strict descendant has a strictly larger
id and is itself ascending. -/
theorem ascending_descendants_gt : ∀ (p : SubQueryPlan),
    plan_ids_ascending p = true →
    ∀ q ∈ subtree_plans_of_list p.child_query_plans,
      p.plan_id < q.plan_id ∧ plan_ids_ascending q = true
  | .mk plan_id query_ast schema_id children => by
    intro hasc q hq
    simp only [plan_ids_ascending] at hasc
    simp only [SubQueryPlan.child_query_plans, SubQueryPlan.plan_id] at *
    exact children_above_descendants_gt children plan_id hasc q hq

/-- The list version: every plan in the flattened subtrees of an
above-the-bound list has id above the bound and is ascending. -/
theorem children_above_descendants_gt : ∀ (l : List SubQueryPlan) (bound : Nat),
    children_ids_above bound l = true →
    ∀ q ∈ subtree_plans_of_list l,
      bound < q.plan_id ∧ plan_ids_ascending q = true
  | [], bound => by
    intro _ q hq
    simp [subtree_plans_of_list] at hq
  | .mk plan_id query_ast schema_id grandchildren :: rest, bound => by
    intro hab q hq
    simp only [children_ids_above, Bool.and_eq_true, decide_eq_true_eq] at hab
    obtain ⟨⟨hlt, hasc⟩, hrest⟩ := hab
    simp only [subtree_plans_of_list, subtree_plans, List.mem_append,
      List.mem_cons] at hq
    rcases hq with (rfl | hq) | hq
    · exact ⟨hlt, hasc⟩
    · have := ascending_descendants_gt
        (SubQueryPlan.mk plan_id query_ast schema_id grandchildren) hasc q
        (by simpa [SubQueryPlan.child_query_plans] using hq)
      simp only [SubQueryPlan.plan_id] at this
      exact ⟨Nat.lt_trans hlt this.1, this.2⟩
    · exact children_above_descendants_gt rest bound hrest q hq

end

/-- C9: in every plan tree produced by make_query_plan, every plan strictly
below another plan has a strictly greater id: plan ids strictly increase
along every root-to-leaf path, so each descendant id is distinct from and
assigned after all of its ancestors'. -/
theorem plan_ids_increase_along_paths :
    ∀ (node : SubQueryNode) (names : List String) (d : QueryPlanDescriptor),
      make_query_plan node names = .ok d →
      ∀ p, p ∈ subtree_plans d.root_sub_query_plan →
      ∀ q, q ∈ subtree_plans_of_list p.child_query_plans →
      p.plan_id < q.plan_id := by
  intro node names d hok p hp q hq
  simp only [make_query_plan] at hok
  rcases hroot : make_query_plan_recursive node 0 1 with e | ⟨children, descs⟩ <;>
    rw [hroot] at hok
  · cases hok
  · simp only [Except.ok.injEq] at hok
    have hasc : children_ids_above 0 children = true :=
      mqpr_ids_ascending node 0 1 children descs hroot Nat.zero_lt_one
    rw [← hok] at hp
    simp only [QueryPlanDescriptor.root_sub_query_plan] at hp
    simp only [subtree_plans, List.mem_cons] at hp
    rcases hp with rfl | hp
    · have hasc' : plan_ids_ascending
          (SubQueryPlan.mk 0 node.query_ast node.schema_id children) = true := by
        simpa [plan_ids_ascending] using hasc
      exact (ascending_descendants_gt _ hasc' q hq).1
    · have hdesc := children_above_descendants_gt children 0 hasc p hp
      exact (ascending_descendants_gt p hdesc.2 q hq).1

/-- The plan descriptor built from the plan-id test tree. -/
def plan_id_test_descriptor : QueryPlanDescriptor :=
  match make_query_plan plan_id_test_node [] with
  | .ok d => d
  | .error _ => ⟨.mk 0 (leaf_fragment "r") "s1" [], [], []⟩

/-- Witness for the ascending-ids theorem at the concrete test tree: the root
plan and its first child. -/
theorem plan_ids_increase_along_paths_witness :
    make_query_plan plan_id_test_node [] = .ok plan_id_test_descriptor ∧
    plan_id_test_descriptor.root_sub_query_plan.plan_id <
      ((subtree_plans_of_list
        plan_id_test_descriptor.root_sub_query_plan.child_query_plans).headD
        plan_id_test_descriptor.root_sub_query_plan).plan_id :=
  ⟨rfl,
    plan_ids_increase_along_paths plan_id_test_node [] plan_id_test_descriptor rfl
      plan_id_test_descriptor.root_sub_query_plan (List.Mem.head _)
      _ (List.Mem.head _)⟩

/-- Reading an association list at the key stored in front. -/
theorem lookup_assoc_cons_self {κ ν : Type} [DecidableEq κ] (k : κ) (v : ν)
    (rest : List (κ × ν)) : lookup_assoc ((k, v) :: rest) k = some v := by
  simp [lookup_assoc]

/-- Reading the index at a value stored in front. -/
theorem index_get_cons (p : Value × List Nat) (rest : JoinIndex) (w : Value) :
    index_get (p :: rest) w = if p.1 = w then p.2 else index_get rest w := by
  by_cases h : p.1 = w <;> simp [index_get, lookup_assoc, h]

/-- Reading the index after registering one position: the position is appended
at the registered value and every other value is untouched. -/
theorem index_get_append (idx : JoinIndex) (v : Value) (i : Nat) (w : Value) :
    index_get (append_at_key idx v i) w =
      if w = v then index_get idx w ++ [i] else index_get idx w := by
  induction idx with
  | nil =>
    by_cases hw : w = v
    · subst hw
      simp [append_at_key, index_get, lookup_assoc]
    · have hvw : ¬ v = w := fun h => hw h.symm
      simp [append_at_key, index_get, lookup_assoc, hw, hvw]
  | cons p rest ih =>
    by_cases hp : p.1 = v
    · by_cases hw : p.1 = w
      · have hwv : w = v := hw.symm.trans hp
        subst hwv
        simp [append_at_key, hp, index_get_cons, hw]
      · have hwv : ¬ w = v := fun h => hw (hp.trans h.symm)
        have hvw : ¬ v = w := fun h => hwv h.symm
        simp [append_at_key, hp, index_get_cons, hw, hwv, hvw]
    · by_cases hw : p.1 = w
      · have hwv : ¬ w = v := fun h => hp (hw.trans h)
        simp [append_at_key, hp, index_get_cons, hw, hwv]
      · simp [append_at_key, hp, index_get_cons, hw, ih]

/-- Positions registered by the index-building loop: on success, a position is
in the final index at a value exactly when it was already in the accumulator
or points (offset by the enumeration base) at a row whose join column holds
that value. -/
theorem make_join_index_rows_mem :
    ∀ (rows : List Row) (k : String) (n : Nat) (idx0 idx : JoinIndex),
      make_join_index_rows rows k n idx0 = .ok idx →
      ∀ (w : Value) (i : Nat),
        i ∈ index_get idx w ↔
          i ∈ index_get idx0 w ∨
            ∃ j r, rows.get? j = some r ∧ i = n + j ∧ lookup_assoc r k = some w := by
  intro rows
  induction rows with
  | nil =>
    intro k n idx0 idx hok w i
    simp only [make_join_index_rows, Except.ok.injEq] at hok
    subst hok
    simp [List.get?]
  | cons r rest ih =>
    intro k n idx0 idx hok w i
    rcases hl : lookup_assoc r k with _ | v <;>
      simp only [make_join_index_rows, hl] at hok
    · cases hok
    · have hstep := ih k (n + 1) (append_at_key idx0 v n) idx hok w i
      rw [hstep, index_get_append]
      by_cases hw : w = v
      · subst hw
        rw [if_pos rfl]
        simp only [List.mem_append, List.mem_singleton]
        constructor
        · rintro ((h | rfl) | ⟨j, r', hget, rfl, hlook⟩)
          · exact Or.inl h
          · exact Or.inr ⟨0, r, rfl, by omega, hl⟩
          · exact Or.inr ⟨j + 1, r', hget, by omega, hlook⟩
        · rintro (h | ⟨j, r', hget, rfl, hlook⟩)
          · exact Or.inl (Or.inl h)
          · cases j with
            | zero =>
              cases hget
              rw [hl] at hlook
              cases hlook
              exact Or.inl (Or.inr (by omega))
            | succ j' =>
              exact Or.inr ⟨j', r', hget, by omega, hlook⟩
      · rw [if_neg hw]
        constructor
        · rintro (h | ⟨j, r', hget, rfl, hlook⟩)
          · exact Or.inl h
          · exact Or.inr ⟨j + 1, r', hget, by omega, hlook⟩
        · rintro (h | ⟨j, r', hget, rfl, hlook⟩)
          · exact Or.inl h
          · cases j with
            | zero =>
              cases hget
              rw [hl] at hlook
              cases hlook
              exact absurd rfl hw
            | succ j' =>
              exact Or.inr ⟨j', r', hget, by omega, hlook⟩

/-- Positions in a built join index point exactly at the rows whose join
column holds the looked-up value. -/
theorem make_join_index_for_output_mem (rows : List Row) (k : String)
    (idx : JoinIndex) (hok : make_join_index_for_output rows k = .ok idx)
    (w : Value) (i : Nat) :
    i ∈ index_get idx w ↔ ∃ r, rows.get? i = some r ∧ lookup_assoc r k = some w := by
  rw [make_join_index_rows_mem rows k 0 [] idx hok w i]
  have hempty : index_get ([] : JoinIndex) w = [] := rfl
  rw [hempty]
  simp only [List.not_mem_nil, false_or]
  constructor
  · rintro ⟨j, r, hget, rfl, hlook⟩
    exact ⟨r, by simpa using hget, hlook⟩
  · rintro ⟨r, hget, hlook⟩
    exact ⟨i, r, hget, by omega, hlook⟩

/-- Index construction succeeds whenever every row carries the join column. -/
theorem make_join_index_rows_total :
    ∀ (rows : List Row) (k : String) (n : Nat) (idx0 : JoinIndex),
      (∀ r ∈ rows, (lookup_assoc r k).isSome = true) →
      ∃ idx, make_join_index_rows rows k n idx0 = .ok idx := by
  intro rows
  induction rows with
  | nil => intro k n idx0 _; exact ⟨idx0, rfl⟩
  | cons r rest ih =>
    intro k n idx0 hall
    obtain ⟨v, hv⟩ := Option.isSome_iff_exists.1 (hall r (List.mem_cons_self _ _))
    obtain ⟨idx, hidx⟩ := ih k (n + 1) (append_at_key idx0 v n)
      (fun s hs => hall s (List.mem_cons_of_mem _ hs))
    exact ⟨idx, by simp only [make_join_index_rows, hv]; exact hidx⟩

/-- The embedding of make_join_index_for_output succeeds whenever every row
carries the join column. -/
theorem make_join_index_for_output_total (rows : List Row) (k : String)
    (hall : ∀ r ∈ rows, (lookup_assoc r k).isSome = true) :
    ∃ idx, make_join_index_for_output rows k = .ok idx :=
  make_join_index_rows_total rows k 0 [] hall

/-- The inner join loop over matched positions succeeds on valid positions and
emits exactly the unions of the current row with each matched child row. -/
theorem join_rows_of_matches_spec :
    ∀ (positions : List Nat) (joining : List Row) (cur : Row),
      (∀ i ∈ positions, ∃ ch, joining.get? i = some ch) →
      ∃ res, join_rows_of_matches joining cur positions = .ok res ∧
        ∀ row, row ∈ res ↔
          ∃ i ∈ positions, ∃ ch, joining.get? i = some ch ∧
            row = dict_union cur ch := by
  intro positions
  induction positions with
  | nil => intro joining cur _; exact ⟨[], rfl, by simp⟩
  | cons i rest ih =>
    intro joining cur hvalid
    obtain ⟨ch, hch⟩ := hvalid i (List.mem_cons_self _ _)
    obtain ⟨res, hres, hmem⟩ :=
      ih joining cur (fun j hj => hvalid j (List.mem_cons_of_mem _ hj))
    refine ⟨dict_union cur ch :: res, ?_, ?_⟩
    · simp only [join_rows_of_matches, hch, hres]
    · intro row
      simp only [List.mem_cons, hmem]
      constructor
      · rintro (rfl | ⟨j, hj, ch', hch', rfl⟩)
        · exact ⟨i, Or.inl rfl, ch, hch, rfl⟩
        · exact ⟨j, Or.inr hj, ch', hch', rfl⟩
      · rintro ⟨j, rfl | hj', ch', hch', rfl⟩
        · rw [hch] at hch'
          cases hch'
          exact Or.inl rfl
        · exact Or.inr ⟨j, hj', ch', hch', rfl⟩

/-- The outer join loop over the accumulating stream succeeds when every
current row carries the parent-side column, and a row is emitted exactly when
some current row and some child row share their join value, the emitted row
being their field-wise union with child precedence. -/
theorem join_all_rows_spec :
    ∀ (cur_rows joining : List Row) (idx : JoinIndex) (pk ck : String),
      make_join_index_for_output joining ck = .ok idx →
      (∀ r ∈ cur_rows, (lookup_assoc r pk).isSome = true) →
      ∃ res, join_all_rows joining idx pk cur_rows = .ok res ∧
        ∀ row, row ∈ res ↔
          ∃ cur ∈ cur_rows, ∃ jv, lookup_assoc cur pk = some jv ∧
            ∃ ch ∈ joining, lookup_assoc ch ck = some jv ∧
              row = dict_union cur ch := by
  intro cur_rows
  induction cur_rows with
  | nil => intro joining idx pk ck _ _; exact ⟨[], rfl, by simp⟩
  | cons cur rest ih =>
    intro joining idx pk ck hidx hvalid
    obtain ⟨jv, hjv⟩ := Option.isSome_iff_exists.1 (hvalid cur (List.mem_cons_self _ _))
    have hposvalid : ∀ i ∈ index_get idx jv, ∃ ch, joining.get? i = some ch := by
      intro i hi
      obtain ⟨r, hr, _⟩ := (make_join_index_for_output_mem joining ck idx hidx jv i).1 hi
      exact ⟨r, hr⟩
    obtain ⟨res1, hres1, hmem1⟩ :=
      join_rows_of_matches_spec (index_get idx jv) joining cur hposvalid
    obtain ⟨res2, hres2, hmem2⟩ :=
      ih joining idx pk ck hidx (fun r hr => hvalid r (List.mem_cons_of_mem _ hr))
    refine ⟨res1 ++ res2, ?_, ?_⟩
    · simp only [join_all_rows, hjv, hres1, hres2]
    · intro row
      simp only [List.mem_append, hmem1, hmem2, List.mem_cons]
      constructor
      · rintro (⟨i, hi, ch, hch, rfl⟩ | ⟨c, hc, jv', hjv', ch, hch, hlook, rfl⟩)
        · obtain ⟨r, hr, hrk⟩ :=
            (make_join_index_for_output_mem joining ck idx hidx jv i).1 hi
          rw [hr] at hch
          cases hch
          exact ⟨cur, Or.inl rfl, jv, hjv, ch, List.get?_mem hr, hrk, rfl⟩
        · exact ⟨c, Or.inr hc, jv', hjv', ch, hch, hlook, rfl⟩
      · rintro ⟨c, rfl | hc', jv', hjv', ch, hch, hlook, rfl⟩
        · rw [hjv] at hjv'
          cases hjv'
          obtain ⟨i, hi⟩ := List.mem_iff_get?.1 hch
          refine Or.inl ⟨i, ?_, ch, hi, rfl⟩
          exact (make_join_index_for_output_mem joining ck idx hidx jv i).2
            ⟨ch, hi, hlook⟩
        · exact Or.inr ⟨c, hc', jv', hjv', ch, hch, hlook, rfl⟩

/-- One join descriptor applied through join_results: the result exists and is
characterized by the shared join values of the parent-side and child-side
columns. -/
theorem join_results_single_spec
    (pk ck : String) (cid pid : Nat) (cur_rows child_rows : List Row)
    (idx : JoinIndex)
    (hidx : make_join_index_for_output child_rows ck = .ok idx)
    (hvalid : ∀ r ∈ cur_rows, (lookup_assoc r pk).isSome = true) :
    ∃ res, join_results [(cid, child_rows)] [(cid, idx)] cur_rows
        [⟨(pk, ck), cid, pid⟩] = .ok res ∧
      ∀ row, row ∈ res ↔
        ∃ cur ∈ cur_rows, ∃ jv, lookup_assoc cur pk = some jv ∧
          ∃ ch ∈ child_rows, lookup_assoc ch ck = some jv ∧
            row = dict_union cur ch := by
  obtain ⟨res, hres, hmem⟩ := join_all_rows_spec cur_rows child_rows idx pk ck hidx hvalid
  refine ⟨res, ?_, hmem⟩
  simp only [join_results, lookup_assoc_cons_self, hres]

/-- Root rows of the worked join example: ids 1 and 2 with join values x, y. -/
def c5_root_rows : List Row :=
  [[("id", .int 1), ("a_out", .str "x")], [("id", .int 2), ("a_out", .str "y")]]

/-- Child rows of the worked join example: both join value x. -/
def c5_child_rows : List Row :=
  [[("b_out", .str "x"), ("val", .int 10)], [("b_out", .str "x"), ("val", .int 11)]]

/-- Join descriptor of the worked example: parent column a_out joined to child
column b_out, child plan 1 below the root plan 0. -/
def c5_descriptor : OutputJoinDescriptor := ⟨("a_out", "b_out"), 1, 0⟩

/-- C5: joining the worked example rows through index construction and
join_results yields exactly the two rows merging id 1 with each child row, in
that order, the row with id 2 being dropped for lack of a match; a colliding
key takes its value from the child row; and in general the single-descriptor
join succeeds when every current row carries the parent-side column and emits
exactly the field-wise unions, with child precedence, of each current row with
each child row sharing its join value, rows without a match contributing
nothing. -/
theorem join_results_example_and_characterization :
    (match make_join_indexes [c5_descriptor] [(0, c5_root_rows), (1, c5_child_rows)] with
      | .ok idxs => join_results [(0, c5_root_rows), (1, c5_child_rows)] idxs
          c5_root_rows [c5_descriptor]
      | .error e => .error e) =
      .ok [[("id", .int 1), ("a_out", .str "x"), ("b_out", .str "x"), ("val", .int 10)],
           [("id", .int 1), ("a_out", .str "x"), ("b_out", .str "x"), ("val", .int 11)]] ∧
    dict_union [("a", .str "x"), ("k", .int 1)] [("b", .str "x"), ("k", .int 2)] =
      [("a", .str "x"), ("k", .int 2), ("b", .str "x")] ∧
    (∀ (pk ck : String) (cid pid : Nat) (cur_rows child_rows : List Row)
        (idx : JoinIndex),
      make_join_index_for_output child_rows ck = .ok idx →
      (∀ r ∈ cur_rows, (lookup_assoc r pk).isSome = true) →
      ∃ res, join_results [(cid, child_rows)] [(cid, idx)] cur_rows
          [⟨(pk, ck), cid, pid⟩] = .ok res ∧
        ∀ row, row ∈ res ↔
          ∃ cur ∈ cur_rows, ∃ jv, lookup_assoc cur pk = some jv ∧
            ∃ ch ∈ child_rows, lookup_assoc ch ck = some jv ∧
              row = dict_union cur ch) :=
  ⟨rfl, rfl, fun pk ck cid pid cur_rows child_rows idx hidx hvalid =>
    join_results_single_spec pk ck cid pid cur_rows child_rows idx hidx hvalid⟩

/-- Witness for the join characterization at a concrete input. -/
theorem join_results_characterization_witness :
    make_join_index_for_output [[("b", Value.int 1)]] "b" = .ok [(.int 1, [0])] ∧
    (∀ r ∈ [[("a", Value.int 1)]], (lookup_assoc r "a").isSome = true) ∧
    ∃ res, join_results [(7, [[("b", Value.int 1)]])] [(7, [(.int 1, [0])])]
        [[("a", Value.int 1)]] [⟨("a", "b"), 7, 0⟩] = .ok res ∧
      ∀ row, row ∈ res ↔
        ∃ cur ∈ [[("a", Value.int 1)]], ∃ jv, lookup_assoc cur "a" = some jv ∧
          ∃ ch ∈ [[("b", Value.int 1)]], lookup_assoc ch "b" = some jv ∧
            row = dict_union cur ch :=
  ⟨rfl, by decide,
    join_results_example_and_characterization.2.2 "a" "b" 7 0
      [[("a", Value.int 1)]] [[("b", Value.int 1)]] [(.int 1, [0])] rfl (by decide)⟩

/-- C10: the join is total only when the join columns are present: index
construction succeeds exactly on rows all carrying the child-side column and
raises KeyError on a row without it, and single-descriptor composition
succeeds when every current row carries the parent-side column while a
current row without it raises KeyError rather than treating the value as
absent. -/
theorem join_requires_join_columns :
    (∀ (rows : List Row) (k : String),
      (∀ r ∈ rows, (lookup_assoc r k).isSome = true) →
      ∃ idx, make_join_index_for_output rows k = .ok idx) ∧
    make_join_index_for_output [[("a", Value.int 1)]] "b" = .error .keyError ∧
    (∀ (pk ck : String) (cid pid : Nat) (cur_rows child_rows : List Row)
        (idx : JoinIndex),
      make_join_index_for_output child_rows ck = .ok idx →
      (∀ r ∈ cur_rows, (lookup_assoc r pk).isSome = true) →
      ∃ res, join_results [(cid, child_rows)] [(cid, idx)] cur_rows
          [⟨(pk, ck), cid, pid⟩] = .ok res) ∧
    join_results [(1, ([] : List Row))] [(1, ([] : JoinIndex))]
      [[("z", Value.int 0)]] [⟨("a", "b"), 1, 0⟩] = .error .keyError := by
  refine ⟨make_join_index_for_output_total, rfl, ?_, rfl⟩
  intro pk ck cid pid cur_rows child_rows idx hidx hvalid
  obtain ⟨res, hres, _⟩ :=
    join_results_single_spec pk ck cid pid cur_rows child_rows idx hidx hvalid
  exact ⟨res, hres⟩

/-- Witness for the join-column totality theorem at a concrete input. -/
theorem join_requires_join_columns_witness :
    (∀ r ∈ [[("c", Value.int 3)]], (lookup_assoc r "c").isSome = true) ∧
    (∃ idx, make_join_index_for_output [[("c", Value.int 3)]] "c" = .ok idx) ∧
    make_join_index_for_output [[("d", Value.int 4)]] "d" = .ok [(.int 4, [0])] ∧
    ∃ res, join_results [(9, [[("d", Value.int 4)]])] [(9, [(.int 4, [0])])]
        [[("p", Value.int 4)]] [⟨("p", "d"), 9, 0⟩] = .ok res :=
  ⟨by decide,
    join_requires_join_columns.1 [[("c", Value.int 3)]] "c" (by decide),
    rfl,
    join_requires_join_columns.2.2.1 "p" "d" 9 0 [[("p", Value.int 4)]]
      [[("d", Value.int 4)]] [(.int 4, [0])] rfl (by decide)⟩

/-- Reading an association list after a dictionary assignment: the assigned
key now holds the new value and every other key is untouched. -/
theorem lookup_insert_assoc {κ ν : Type} [DecidableEq κ] :
    ∀ (l : List (κ × ν)) (k : κ) (v : ν) (k' : κ),
      lookup_assoc (insert_assoc l k v) k' =
        if k' = k then some v else lookup_assoc l k' := by
  intro l k v k'
  induction l with
  | nil =>
    by_cases h : k' = k
    · subst h; simp [insert_assoc, lookup_assoc]
    · have h' : ¬ k = k' := fun e => h e.symm
      simp [insert_assoc, lookup_assoc, h, h']
  | cons p rest ih =>
    by_cases hp : p.1 = k
    · by_cases h : k' = k
      · subst h; simp [insert_assoc, lookup_assoc, hp]
      · have h2 : ¬ p.1 = k' := fun e => h (e.symm.trans hp)
        have h3 : ¬ k = k' := fun e => h e.symm
        simp [insert_assoc, lookup_assoc, hp, h, h2, h3]
    · by_cases h : p.1 = k'
      · have hk : ¬ k' = k := fun e => hp (h.trans e)
        simp [insert_assoc, lookup_assoc, hp, h, hk]
      · simp [insert_assoc, lookup_assoc, hp, h, ih]

/-- The subquery-argument dict comprehension reads every requested name from
the argument pool. -/
theorem pick_args_lookup :
    ∀ (names : List String) (full acc res : Row),
      pick_args full names acc = .ok res →
      ∀ a, lookup_assoc res a =
        if a ∈ names then lookup_assoc full a else lookup_assoc acc a := by
  intro names
  induction names with
  | nil =>
    intro full acc res hok a
    simp only [pick_args, Except.ok.injEq] at hok
    subst hok
    simp
  | cons n rest ih =>
    intro full acc res hok a
    rcases hn : lookup_assoc full n with _ | v <;>
      simp only [pick_args, hn] at hok
    · cases hok
    · have hres := ih full (insert_assoc acc n v) res hok a
      rw [hres, lookup_insert_assoc]
      by_cases ha : a ∈ rest
      · simp [ha]
      · by_cases han : a = n
        · subst han
          simp [ha, hn]
        · simp [ha, han]

/-- The subquery-argument dict comprehension succeeds when the pool holds
every requested name. -/
theorem pick_args_total :
    ∀ (names : List String) (full acc : Row),
      (∀ a ∈ names, (lookup_assoc full a).isSome = true) →
      ∃ res, pick_args full names acc = .ok res := by
  intro names
  induction names with
  | nil => intro full acc _; exact ⟨acc, rfl⟩
  | cons n rest ih =>
    intro full acc hall
    obtain ⟨v, hv⟩ := Option.isSome_iff_exists.1 (hall n (List.mem_cons_self _ _))
    obtain ⟨res, hres⟩ := ih full (insert_assoc acc n v)
      (fun a ha => hall a (List.mem_cons_of_mem _ ha))
    exact ⟨res, by simp only [pick_args, hv]; exact hres⟩

/-- The arguments handed to an executor exist when the pool holds every
runtime argument of the fragment, and agree with the pool on each of them. -/
theorem compute_subquery_args_spec (full : Row) (ast : GAst)
    (h : ∀ a ∈ get_query_runtime_arguments ast, (lookup_assoc full a).isSome = true) :
    ∃ res, compute_subquery_args full ast = .ok res ∧
      ∀ a ∈ get_query_runtime_arguments ast,
        lookup_assoc res a = lookup_assoc full a := by
  obtain ⟨res, hres⟩ := pick_args_total (get_query_runtime_arguments ast) full [] h
  refine ⟨res, hres, fun a ha => ?_⟩
  rw [pick_args_lookup (get_query_runtime_arguments ast) full [] res hres a, if_pos ha]

mutual

/-- Dropping the depths from the traversal helper yields the preorder plans. -/
theorem helper_map_fst : ∀ (p : SubQueryPlan) (d : Nat),
    (get_plan_and_depth_helper p d).map Prod.fst = subtree_plans p
  | .mk plan_id query_ast schema_id children, d => by
    simp only [get_plan_and_depth_helper, subtree_plans, List.map_cons,
      List.cons.injEq, true_and]
    exact helper_list_map_fst children (d + 1)

/-- The list version of dropping the depths. -/
theorem helper_list_map_fst : ∀ (l : List SubQueryPlan) (d : Nat),
    (get_plan_and_depth_helper_list l d).map Prod.fst = subtree_plans_of_list l
  | [], _ => rfl
  | p :: rest, d => by
    simp only [get_plan_and_depth_helper_list, List.map_append,
      subtree_plans_of_list]
    rw [helper_map_fst p d, helper_list_map_fst rest d]

end

/-- The execution engine visits exactly the preorder plans of the tree. -/
theorem plans_in_dfs_order_eq_subtree (p : SubQueryPlan) :
    plans_in_dfs_order p = subtree_plans p :=
  helper_map_fst p 0

mutual

/-- Around any occurrence of a plan in a preorder listing, every plan of its
strict subtree appears among the elements after that occurrence. -/
theorem subtree_split_descendants :
    ∀ (p : SubQueryPlan) (pre : List SubQueryPlan) (b : SubQueryPlan)
      (post : List SubQueryPlan),
    subtree_plans p = pre ++ b :: post →
    ∀ q ∈ subtree_plans_of_list b.child_query_plans, q ∈ post
  | .mk plan_id query_ast schema_id children, pre, b, post => by
    intro hsplit q hq
    simp only [subtree_plans] at hsplit
    cases pre with
    | nil =>
      simp only [List.nil_append, List.cons.injEq] at hsplit
      obtain ⟨rfl, rfl⟩ := hsplit
      simpa [SubQueryPlan.child_query_plans] using hq
    | cons x pre' =>
      simp only [List.cons_append, List.cons.injEq] at hsplit
      exact subtree_list_split_descendants children pre' b post hsplit.2 q hq

/-- The list version of the descendants-after-occurrence property. -/
theorem subtree_list_split_descendants :
    ∀ (l : List SubQueryPlan) (pre : List SubQueryPlan) (b : SubQueryPlan)
      (post : List SubQueryPlan),
    subtree_plans_of_list l = pre ++ b :: post →
    ∀ q ∈ subtree_plans_of_list b.child_query_plans, q ∈ post
  | [], pre, b, post => by
    intro hsplit q hq
    rcases pre with _ | ⟨x, pre'⟩ <;> simp [subtree_plans_of_list] at hsplit
  | p :: rest, pre, b, post => by
    intro hsplit q hq
    simp only [subtree_plans_of_list] at hsplit
    rcases List.append_eq_append_iff.1 hsplit with ⟨mid, hpre, hmid⟩ | ⟨mid, hpre, hmid⟩
    · exact subtree_list_split_descendants rest mid b post hmid q hq
    · rcases mid with _ | ⟨y, mid'⟩
      · rw [List.nil_append] at hmid
        exact subtree_list_split_descendants rest [] b post
          (by rw [List.nil_append]; exact hmid.symm) q hq
      · rw [List.cons_append] at hmid
        injection hmid with h1 h2
        subst h1
        subst h2
        exact List.mem_append_left _
          (subtree_split_descendants p pre b mid' hpre q hq)

end

/-- C6: for a two-level plan tree whose child fragment references the bound
variable named after the parent output, execution computes the root executor
call, writes the distinct non-null values of the parent output column of the
root rows into the argument pool under that variable, and the child executor
is then called with arguments carrying exactly that value set under the
parent output name; and in any plan tree the execution order lists every plan
before all plans of its strict subtree, so argument propagation of a node
completes before any of its descendants execute. -/
theorem child_executor_receives_propagated_values :
    (∀ (root_ast child_ast : GAst) (root_schema child_schema po co : String)
        (funcs : String → Option ExecutionFunc) (rootF childF : ExecutionFunc)
        (qargs : Row),
      funcs root_schema = some rootF →
      funcs child_schema = some childF →
      po ∈ get_query_runtime_arguments child_ast →
      (∀ a ∈ get_query_runtime_arguments root_ast,
        (lookup_assoc qargs a).isSome = true) →
      (∀ a ∈ get_query_runtime_arguments child_ast, a ≠ po →
        (lookup_assoc qargs a).isSome = true) →
      ∃ root_args child_args,
        plans_in_dfs_order
            (SubQueryPlan.mk 0 root_ast root_schema
              [SubQueryPlan.mk 1 child_ast child_schema []]) =
          [SubQueryPlan.mk 0 root_ast root_schema
              [SubQueryPlan.mk 1 child_ast child_schema []],
            SubQueryPlan.mk 1 child_ast child_schema []] ∧
        compute_subquery_args qargs root_ast = .ok root_args ∧
        step_plan funcs
            (stitching_output_names_by_parent_plan_id [⟨(po, co), 1, 0⟩])
            ([], qargs)
            (SubQueryPlan.mk 0 root_ast root_schema
              [SubQueryPlan.mk 1 child_ast child_schema []]) =
          .ok (root_args, rootF root_ast root_args,
            ([(0, rootF root_ast root_args)],
              insert_assoc qargs po
                (.list (collect_output_column po (rootF root_ast root_args) [])))) ∧
        step_plan funcs
            (stitching_output_names_by_parent_plan_id [⟨(po, co), 1, 0⟩])
            ([(0, rootF root_ast root_args)],
              insert_assoc qargs po
                (.list (collect_output_column po (rootF root_ast root_args) [])))
            (SubQueryPlan.mk 1 child_ast child_schema []) =
          .ok (child_args, childF child_ast child_args,
            ([(0, rootF root_ast root_args),
                (1, childF child_ast child_args)],
              insert_assoc qargs po
                (.list (collect_output_column po (rootF root_ast root_args) [])))) ∧
        execute_plans funcs
            (stitching_output_names_by_parent_plan_id [⟨(po, co), 1, 0⟩])
            [SubQueryPlan.mk 0 root_ast root_schema
                [SubQueryPlan.mk 1 child_ast child_schema []],
              SubQueryPlan.mk 1 child_ast child_schema []] ([], qargs) =
          .ok ([(0, rootF root_ast root_args),
                (1, childF child_ast child_args)],
              insert_assoc qargs po
                (.list (collect_output_column po (rootF root_ast root_args) []))) ∧
        lookup_assoc child_args po =
          some (.list (collect_output_column po (rootF root_ast root_args) [])) ∧
        (∀ x, x ∈ collect_output_column po (rootF root_ast root_args) [] ↔
          x ≠ Value.null ∧
            ∃ r ∈ rootF root_ast root_args, lookup_assoc r po = some x)) ∧
    (∀ (root : SubQueryPlan) (pre : List SubQueryPlan) (b : SubQueryPlan)
        (post : List SubQueryPlan),
      plans_in_dfs_order root = pre ++ b :: post →
      ∀ q ∈ subtree_plans_of_list b.child_query_plans, q ∈ post) := by
  constructor
  · intro root_ast child_ast root_schema child_schema po co funcs rootF childF qargs
      hfr hfc hpo hrootargs hchildargs
    obtain ⟨root_args, hra, _⟩ := compute_subquery_args_spec qargs root_ast hrootargs
    have hargs1 : ∀ a ∈ get_query_runtime_arguments child_ast,
        (lookup_assoc (insert_assoc qargs po
          (Value.list (collect_output_column po (rootF root_ast root_args) []))) a).isSome
          = true := by
      intro a ha
      rw [lookup_insert_assoc]
      by_cases hap : a = po
      · simp [hap]
      · simp only [if_neg hap]
        exact hchildargs a ha hap
    obtain ⟨child_args, hca, hcl⟩ :=
      compute_subquery_args_spec _ child_ast hargs1
    have hstepr : step_plan funcs
        (stitching_output_names_by_parent_plan_id [⟨(po, co), 1, 0⟩])
        ([], qargs)
        (SubQueryPlan.mk 0 root_ast root_schema
          [SubQueryPlan.mk 1 child_ast child_schema []]) =
        .ok (root_args, rootF root_ast root_args,
          ([(0, rootF root_ast root_args)],
            insert_assoc qargs po
              (.list (collect_output_column po (rootF root_ast root_args) [])))) := by
      simp only [step_plan, SubQueryPlan.query_ast, SubQueryPlan.schema_id,
        SubQueryPlan.plan_id, hra, hfr]
      rfl
    have hstepc : step_plan funcs
        (stitching_output_names_by_parent_plan_id [⟨(po, co), 1, 0⟩])
        ([(0, rootF root_ast root_args)],
          insert_assoc qargs po
            (.list (collect_output_column po (rootF root_ast root_args) [])))
        (SubQueryPlan.mk 1 child_ast child_schema []) =
        .ok (child_args, childF child_ast child_args,
          ([(0, rootF root_ast root_args),
              (1, childF child_ast child_args)],
            insert_assoc qargs po
              (.list (collect_output_column po (rootF root_ast root_args) [])))) := by
      simp only [step_plan, SubQueryPlan.query_ast, SubQueryPlan.schema_id,
        SubQueryPlan.plan_id, hca, hfc]
      rfl
    refine ⟨root_args, child_args, rfl, hra, hstepr, hstepc, ?_, ?_, ?_⟩
    · simp only [execute_plans, hstepr, hstepc]
    · rw [hcl po hpo, lookup_insert_assoc, if_pos rfl]
    · intro x
      rw [mem_collect_output_column]
      simp
  · intro root pre b post hsplit q hq
    rw [plans_in_dfs_order_eq_subtree] at hsplit
    exact subtree_split_descendants root pre b post hsplit q hq

/-- A child fragment for the propagation witness: one field carrying an
output directive named b_out and a membership filter bound to a_out. -/
def c6_child_ast : GAst :=
  .operationDefinition (some [.field "f"
    [{ name := output_directive_name,
       arguments := [{ name := "out_name", value := .string "b_out" }] },
     get_in_collection_filter_directive "a_out"] none])

/-- Root executor of the propagation witness: two rows whose a_out column
holds one string value and one null. -/
def c6_rootF : ExecutionFunc := fun _ _ => [[("a_out", .str "u")], [("a_out", .null)]]

/-- Child executor of the propagation witness: no rows. -/
def c6_childF : ExecutionFunc := fun _ _ => []

/-- Executor registry of the propagation witness. -/
def c6_executors : String → Option ExecutionFunc := fun s =>
  if s = "r1" then some c6_rootF
  else if s = "c1" then some c6_childF
  else none

/-- Witness for the propagation theorem at a concrete two-level plan. -/
theorem child_executor_receives_propagated_values_witness :
    "a_out" ∈ get_query_runtime_arguments c6_child_ast ∧
    ∃ (root_args child_args : Row),
      compute_subquery_args [] (leaf_fragment "r") = .ok root_args ∧
      step_plan c6_executors
        (stitching_output_names_by_parent_plan_id [⟨("a_out", "b_out"), 1, 0⟩])
        ([], [])
        (SubQueryPlan.mk 0 (leaf_fragment "r") "r1"
          [SubQueryPlan.mk 1 c6_child_ast "c1" []]) =
        .ok (root_args, c6_rootF (leaf_fragment "r") root_args,
          ([(0, c6_rootF (leaf_fragment "r") root_args)],
            insert_assoc [] "a_out"
              (.list (collect_output_column "a_out"
                (c6_rootF (leaf_fragment "r") root_args) [])))) ∧
      lookup_assoc child_args "a_out" =
        some (.list (collect_output_column "a_out"
          (c6_rootF (leaf_fragment "r") root_args) [])) := by
  refine ⟨by decide, ?_⟩
  obtain ⟨root_args, child_args, _, hra, hstepr, _, _, hlook, _⟩ :=
    child_executor_receives_propagated_values.1 (leaf_fragment "r") c6_child_ast
      "r1" "c1" "a_out" "b_out" c6_executors c6_rootF c6_childF []
      rfl rfl (by decide) (by decide) (by decide)
  exact ⟨root_args, child_args, hra, hstepr, hlook⟩
